import Mathlib

/-!
Verification of the BudgetBuddy database-review engine
(`scripts/review-database.py`): cursor-driven pagination (`scan_table`),
duplicate grouping and owner aggregation (`analyze_accounts`,
`analyze_transactions`), and the per-collection orchestration of `main`
(existence check, per-table fault isolation).

DynamoDB items are modelled as association lists from attribute names to
wire-level attribute values; `item.get(f, dict()).get(kind)` becomes a typed
lookup, and Python truthiness of the looked-up string (None and the empty
string are falsy) is modelled explicitly.
-/

/-- A DynamoDB wire-level attribute value, as the script reads them:
string attributes under key S, booleans under key BOOL. Other attribute
kinds the script never touches are collapsed into `other`. -/
inductive AttrValue where
  | S (s : String)
  | BOOL (b : Bool)
  | other
deriving DecidableEq, Repr

/-- A scanned item: a mapping from attribute name to wire value
(a Python dict, modelled as an association list). -/
abbrev Record := List (String × AttrValue)

/-- Python `item.get(field)` on the item dict. -/
def getAttr (item : Record) (field : String) : Option AttrValue :=
  match item with
  | [] => none
  | (k, v) :: rest => if k = field then some v else getAttr rest field

/-- Python `item.get(field, dict()).get(S)`: the string payload of the
field, or None when the field is absent or not a string attribute. -/
def attrS (item : Record) (field : String) : Option String :=
  match getAttr item field with
  | some (AttrValue.S s) => some s
  | _ => none

/-- Python `item.get(field, dict()).get(S, default)`. -/
def attrSD (item : Record) (field : String) (default : String) : String :=
  (attrS item field).getD default

/-- Python `item.get(field, dict()).get(BOOL, default)`. -/
def attrBoolD (item : Record) (field : String) (default : Bool) : Bool :=
  match getAttr item field with
  | some (AttrValue.BOOL b) => b
  | _ => default

/-- The key under which `analyze_accounts` and `analyze_transactions`
index an item for identity field `f`: the code runs
`v = item.get(f, dict()).get(S)` and then `if v:` before inserting, so
an absent field, a non-string attribute and the empty string all yield
no key (Python truthiness). -/
def keyOf (f : String) (r : Record) : Option String :=
  match attrS r f with
  | some v => if v = "" then none else some v
  | none => none

/-- A `defaultdict(list)` keyed by strings, in Python dict insertion
order: the identity index of the script. -/
abbrev Index := List (String × List Record)

/-- Lookup in an `Index` (Python dict access). -/
def lookupA (v : String) : Index → Option (List Record)
  | [] => none
  | (k, g) :: rest => if k = v then some g else lookupA v rest

/-- Python `map[k].append(r)` on a `defaultdict(list)`: append `r` to the
group of `k`, creating the group at the end (insertion order) if new. -/
def insertA (m : Index) (k : String) (r : Record) : Index :=
  match m with
  | [] => [(k, [r])]
  | (k2, g) :: rest =>
    if k2 = k then (k2, g ++ [r]) :: rest else (k2, g) :: insertA rest k r

/-- One loop iteration of the index-building pass for field `f`:
insert the item under its key when the key is truthy, else skip. -/
def indexStep (f : String) (m : Index) (r : Record) : Index :=
  match keyOf f r with
  | some v => insertA m v r
  | none => m

/-- The index-building loop of `analyze_accounts` / `analyze_transactions`
for one field, starting from an accumulated map `m`. -/
def buildIndexFrom (f : String) (m : Index) (items : List Record) : Index :=
  items.foldl (indexStep f) m

/-- The full identity index for field `f` over a scanned item list. -/
def buildIndex (f : String) (items : List Record) : Index :=
  buildIndexFrom f [] items

/-- The duplicate-extraction loop (`if len(group) > 1`): keep exactly the
entries with at least two members, in dict insertion order. -/
def duplicates (m : Index) : Index :=
  m.filter (fun p => decide (1 < p.2.length))

/-- The items whose key for field `f` equals `v`, in scan order. -/
def filterVal (f : String) (v : String) (items : List Record) : List Record :=
  items.filter (fun r => decide (keyOf f r = some v))

/-- Keys of an index, in insertion order. -/
def keysOf (m : Index) : List String :=
  m.map Prod.fst

/-- All group members of an index, groups in insertion order. -/
def groupMembers (m : Index) : List Record :=
  m.foldr (fun p acc => p.2 ++ acc) []

/-- Combining an already-accumulated group with the records inserted
later: used to state the lookup characterisation of `buildIndexFrom`. -/
def combineGroup (o : Option (List Record)) (l : List Record) : Option (List Record) :=
  match o, l with
  | some g, l => some (g ++ l)
  | none, [] => none
  | none, l => some l

/-- A `defaultdict(int)` keyed by strings, in Python dict insertion order:
the per-owner counters of the script. -/
abbrev CountMap := List (String × Nat)

/-- Python `counts[k] += 1` on a `defaultdict(int)`. -/
def bump (m : CountMap) (k : String) : CountMap :=
  match m with
  | [] => [(k, 1)]
  | (k2, n) :: rest =>
    if k2 = k then (k2, n + 1) :: rest else (k2, n) :: bump rest k

/-- The owner key the script uses for an item: the string payload of
`field`, defaulting to the literal sentinel N/A when the field is absent
or not a string attribute (`item.get(field, dict()).get(S, N/A)`). -/
def ownerKey (field : String) (r : Record) : String :=
  attrSD r field "N/A"

/-- The owner-aggregation loop over the stream for one owner field,
starting from accumulated counters `m`. -/
def ownersFrom (field : String) (m : CountMap) (items : List Record) : CountMap :=
  items.foldl (fun m r => bump m (ownerKey field r)) m

/-- Sum of all counters in a `CountMap`. -/
def sumCounts (m : CountMap) : Nat :=
  m.foldr (fun p a => p.2 + a) 0

/-- The result dict of `analyze_accounts` (the keys the script fills in). -/
structure AccountAnalysis where
  total : Nat
  duplicate_account_ids : Index
  duplicate_plaid_ids : Index
  by_user : CountMap
  active : Nat
  inactive : Nat
deriving DecidableEq, Repr

/-- The loop state of `analyze_accounts`: the two identity maps, the
per-user counters and the active/inactive tallies. -/
structure AccScanState where
  account_id_map : Index
  plaid_id_map : Index
  by_user : CountMap
  active : Nat
  inactive : Nat
deriving DecidableEq, Repr

/-- One iteration of the `for item in items` loop of `analyze_accounts`
(lines 79 to 96 of the script): read accountId, plaidAccountId, userId
and active, insert into both identity maps when truthy, always bump the
user counter, and tally active or inactive. -/
def accScanStep (st : AccScanState) (item : Record) : AccScanState :=
  { account_id_map := indexStep "accountId" st.account_id_map item
    plaid_id_map := indexStep "plaidAccountId" st.plaid_id_map item
    by_user := bump st.by_user (attrSD item "userId" "N/A")
    active := if attrBoolD item "active" true then st.active + 1 else st.active
    inactive := if attrBoolD item "active" true then st.inactive else st.inactive + 1 }

/-- `analyze_accounts`: one pass over the scanned items building both
identity maps and the aggregates, then one duplicate-extraction pass per
map (`if len(group) > 1`). -/
def analyze_accounts (items : List Record) : AccountAnalysis :=
  let st := items.foldl accScanStep ⟨[], [], [], 0, 0⟩
  { total := items.length
    duplicate_account_ids := duplicates st.account_id_map
    duplicate_plaid_ids := duplicates st.plaid_id_map
    by_user := st.by_user
    active := st.active
    inactive := st.inactive }

/-- The result dict of `analyze_transactions`. -/
structure TransactionAnalysis where
  total : Nat
  duplicate_transaction_ids : Index
  duplicate_plaid_ids : Index
  by_user : CountMap
  by_account : CountMap
deriving DecidableEq, Repr

/-- The loop state of `analyze_transactions`. -/
structure TxScanState where
  transaction_id_map : Index
  plaid_id_map : Index
  by_user : CountMap
  by_account : CountMap
deriving DecidableEq, Repr

/-- One iteration of the `for item in items` loop of
`analyze_transactions` (lines 122 to 135 of the script). -/
def txScanStep (st : TxScanState) (item : Record) : TxScanState :=
  { transaction_id_map := indexStep "transactionId" st.transaction_id_map item
    plaid_id_map := indexStep "plaidTransactionId" st.plaid_id_map item
    by_user := bump st.by_user (attrSD item "userId" "N/A")
    by_account := bump st.by_account (attrSD item "accountId" "N/A") }

/-- `analyze_transactions`: one pass building both identity maps and both
counters, then the duplicate-extraction passes. -/
def analyze_transactions (items : List Record) : TransactionAnalysis :=
  let st := items.foldl txScanStep ⟨[], [], [], []⟩
  { total := items.length
    duplicate_transaction_ids := duplicates st.transaction_id_map
    duplicate_plaid_ids := duplicates st.plaid_id_map
    by_user := st.by_user
    by_account := st.by_account }

/-- Items counted active by the loop (`item.get(active, dict()).get(BOOL, True)`). -/
def countActive (items : List Record) : Nat :=
  (items.filter (fun r => attrBoolD r "active" true)).length

/-- Items counted inactive by the loop. -/
def countInactive (items : List Record) : Nat :=
  (items.filter (fun r => !attrBoolD r "active" true)).length

/-- Reference construction, following the words of the spec: build each
identity index by its own full traversal of the stream, the owner
aggregate by another, and the active and inactive tallies by two more.
Stated from the spec to compare against the single-pass `analyze_accounts`. -/
def analyze_accounts_multipass (items : List Record) : AccountAnalysis :=
  { total := items.length
    duplicate_account_ids := duplicates (buildIndex "accountId" items)
    duplicate_plaid_ids := duplicates (buildIndex "plaidAccountId" items)
    by_user := ownersFrom "userId" [] items
    active := countActive items
    inactive := countInactive items }

/-- Reference construction for transactions: one full traversal per
index and per aggregate, following the words of the spec. -/
def analyze_transactions_multipass (items : List Record) : TransactionAnalysis :=
  { total := items.length
    duplicate_transaction_ids := duplicates (buildIndex "transactionId" items)
    duplicate_plaid_ids := duplicates (buildIndex "plaidTransactionId" items)
    by_user := ownersFrom "userId" [] items
    by_account := ownersFrom "accountId" [] items }

/-- One DynamoDB scan response: the Items list and the LastEvaluatedKey
continuation cursor (absent on the final page). -/
abbrev Page := List Record × Option String

/-- Python truthiness of the continuation cursor: `if not
last_evaluated_key: break`, where an absent key and an empty one are
both falsy. -/
def cursorTruthy : Option String → Bool
  | none => false
  | some s => !(s == "")

/-- The `while True` pagination loop of `scan_table` over the finite
sequence of responses the backend returns, one response per fetch; a
raised fetch error propagates, discarding items already accumulated.
Returns the accumulated items and the number of fetches performed. -/
def scan_table : List (Except String Page) → Except String (List Record × Nat)
  | [] => Except.ok ([], 0)
  | resp :: rest =>
    match resp with
    | Except.error e => Except.error e
    | Except.ok (its, cur) =>
      if cursorTruthy cur then
        match scan_table rest with
        | Except.error e => Except.error e
        | Except.ok (more, n) => Except.ok (its ++ more, n + 1)
      else Except.ok (its, 1)

/-- Well-formed response sequence per the spec of the backend: at least
one page, every page before the last carries a truthy continuation
cursor, and the last page does not. -/
def wfPages : List Page → Bool
  | [] => false
  | (_, c) :: rest => if rest.isEmpty then !cursorTruthy c else (cursorTruthy c && wfPages rest)

/-- Concatenation of all page item lists, in page order. -/
def pagesItems (ps : List Page) : List Record :=
  ps.foldr (fun p acc => p.1 ++ acc) []

/-- Sum of the page lengths. -/
def sumPageLens (ps : List Page) : Nat :=
  ps.foldr (fun p a => p.1.length + a) 0

/-- Outcome of the existence probe for one table
(`describe_table` in the Step 1 loop of `main`): the table exists, the
probe raised ResourceNotFoundException, or it raised some other error. -/
inductive ProbeResult where
  | found
  | notFound
  | probeFailed (msg : String)
deriving DecidableEq, Repr

/-- What `main` ends up with for one table: a printed and saved analysis,
a skip because the scan returned zero items (`if accounts:` is falsy),
a caught analysis-stage exception (error printed, no analysis), a skip
with a warning because the table does not exist, or a probe error
(error printed, table excluded). -/
inductive TableOutcome (A : Type) where
  | report (a : A)
  | emptySkipped
  | failed (msg : String)
  | skippedMissing
  | probeError (msg : String)
deriving DecidableEq, Repr

/-- The per-table flow of `main` for one analyzed table: Step 1 decides
membership in `existing_tables` from the probe; Step 2 runs only for
members, scans, analyzes when the item list is truthy, and catches any
exception as a printed error. -/
def runTable {A : Type} (probe : ProbeResult)
    (responses : List (Except String Page)) (analyzeFn : List Record → A) :
    TableOutcome A :=
  match probe with
  | ProbeResult.notFound => TableOutcome.skippedMissing
  | ProbeResult.probeFailed m => TableOutcome.probeError m
  | ProbeResult.found =>
    match scan_table responses with
    | Except.error e => TableOutcome.failed e
    | Except.ok (items, _) =>
      if items.isEmpty then TableOutcome.emptySkipped
      else TableOutcome.report (analyzeFn items)

/-- The Step 1 and Step 2 flow of `main` restricted to the two analyzed
tables: each table is probed, and each existing table is scanned and
analyzed inside its own try/except block. -/
def mainCore (probeAcc probeTx : ProbeResult)
    (respAcc respTx : List (Except String Page)) :
    TableOutcome AccountAnalysis × TableOutcome TransactionAnalysis :=
  (runTable probeAcc respAcc analyze_accounts,
   runTable probeTx respTx analyze_transactions)

/-- Concrete account item: accountId A, plaidAccountId p1, userId u1. -/
def recA1 : Record :=
  [("accountId", AttrValue.S "A"), ("plaidAccountId", AttrValue.S "p1"), ("userId", AttrValue.S "u1")]

/-- Concrete account item: accountId A, plaidAccountId p2, userId u1. -/
def recA2 : Record :=
  [("accountId", AttrValue.S "A"), ("plaidAccountId", AttrValue.S "p2"), ("userId", AttrValue.S "u1")]

/-- Concrete account item: accountId B, plaidAccountId p3, userId u2. -/
def recB : Record :=
  [("accountId", AttrValue.S "B"), ("plaidAccountId", AttrValue.S "p3"), ("userId", AttrValue.S "u2")]

/-- Concrete item whose accountId is present but the empty string. -/
def recEmpty1 : Record := [("accountId", AttrValue.S ""), ("userId", AttrValue.S "x")]

/-- Second concrete item with empty-string accountId. -/
def recEmpty2 : Record := [("accountId", AttrValue.S ""), ("userId", AttrValue.S "y")]

/-- Concrete item with no accountId attribute at all. -/
def recNoAcc : Record := [("userId", AttrValue.S "u3")]

/-- The records that carry value `v` in field `f` (the field present as a
string equal to `v`), in scan order: records sharing the value, read off
the item shape with no truthiness filtering. -/
def sharersRaw (f v : String) (items : List Record) : List Record :=
  items.filter (fun r => decide (attrS r f = some v))

/-- The duplicate groups for field `f` that contain record `r`. -/
def groupsContaining (f : String) (items : List Record) (r : Record) : Index :=
  (duplicates (buildIndex f items)).filter (fun p => decide (r ∈ p.2))

/-- The scanned records whose field `f` is absent (no string payload). -/
def rawAbsentRecs (f : String) (items : List Record) : List Record :=
  items.filter (fun r => decide (attrS r f = none))

/-- Whether the value record `r` carries in field `f` is carried by no
other record of the stream. -/
def rawUniqueB (f : String) (items : List Record) (r : Record) : Bool :=
  match attrS r f with
  | some v => decide ((sharersRaw f v items).length = 1)
  | none => false

/-- The scanned records carrying a value of `f` carried by no other record. -/
def rawUniqueRecs (f : String) (items : List Record) : List Record :=
  items.filter (rawUniqueB f items)

/-- The scanned records excluded from the index of `f` by the code
(absent field, non-string attribute, or empty string). -/
def absentRecs (f : String) (items : List Record) : List Record :=
  items.filter (fun r => decide (keyOf f r = none))

/-- Whether record `r` is indexed under a key of `f` held by no other
record of the stream. -/
def uniqueB (f : String) (items : List Record) (r : Record) : Bool :=
  match keyOf f r with
  | some v => decide ((filterVal f v items).length = 1)
  | none => false

/-- The scanned records indexed under a key held by no other record. -/
def uniqueRecs (f : String) (items : List Record) : List Record :=
  items.filter (uniqueB f items)

/-- Claim C1 as stated: every scanned record is in exactly one duplicate
group, or lacks the field, or carries a unique value; and group members
plus field-lacking records plus unique-value records repartition the
scanned set exactly. -/
def specC1Statement (f : String) (items : List Record) : Prop :=
  (∀ r ∈ items,
    (groupsContaining f items r).length = 1 ∨ attrS r f = none ∨ rawUniqueB f items r = true) ∧
  (groupMembers (duplicates (buildIndex f items))
      ++ rawAbsentRecs f items ++ rawUniqueRecs f items).Perm items

/-- Claim C2 as stated, for one value: a duplicate group is emitted for
`v` exactly when at least two scanned records carry `v` in field `f`. -/
def specC2Statement (f : String) (items : List Record) (v : String) : Prop :=
  (∃ g, (v, g) ∈ duplicates (buildIndex f items)) ↔ 2 ≤ (sharersRaw f v items).length

/-- Occurrence count of a record in a list, written with an explicit
decidable-equality predicate to stay independent of `BEq` instances. -/
def countRec (x : Record) (l : List Record) : Nat :=
  l.countP (fun y => decide (y = x))

/-- Concrete item whose userId is present with the literal value N/A. -/
def recNA : Record := [("userId", AttrValue.S "N/A")]

/-- Concrete item with no userId attribute. -/
def recNoUser : Record := [("accountId", AttrValue.S "Z")]

theorem lookupA_insertA (m : Index) (k v : String) (r : Record) :
    lookupA v (insertA m k r) =
      if k = v then some ((lookupA v m).getD [] ++ [r]) else lookupA v m := by
  induction m with
  | nil =>
    by_cases h : k = v <;> simp [insertA, lookupA, h]
  | cons p rest ih =>
    obtain ⟨k2, g⟩ := p
    by_cases h2 : k2 = k
    · subst h2
      by_cases hv : k2 = v
      · subst hv
        simp [insertA, lookupA]
      · simp [insertA, lookupA, hv]
    · by_cases hv : k2 = v
      · subst hv
        have hkv : ¬ k = k2 := fun h => h2 h.symm
        simp [insertA, lookupA, h2, hkv]
      · simp [insertA, lookupA, h2, hv, ih]

theorem combineGroup_nil (o : Option (List Record)) : combineGroup o [] = o := by
  cases o <;> simp [combineGroup]

theorem combineGroup_push (o : Option (List Record)) (r : Record) (l : List Record) :
    combineGroup (some (o.getD [] ++ [r])) l = combineGroup o (r :: l) := by
  cases o <;> simp [combineGroup]

theorem lookupA_buildIndexFrom (f : String) (v : String) (items : List Record) :
    ∀ m : Index, lookupA v (buildIndexFrom f m items) =
      combineGroup (lookupA v m) (filterVal f v items) := by
  induction items with
  | nil =>
    intro m
    simp [buildIndexFrom, filterVal, combineGroup_nil]
  | cons r rest ih =>
    intro m
    have hstep : buildIndexFrom f m (r :: rest) = buildIndexFrom f (indexStep f m r) rest := rfl
    rw [hstep, ih]
    cases hk : keyOf f r with
    | none =>
      have : filterVal f v (r :: rest) = filterVal f v rest := by
        simp [filterVal, List.filter_cons, hk]
      rw [this]
      simp [indexStep, hk]
    | some k =>
      by_cases hkv : k = v
      · subst hkv
        have hf : filterVal f k (r :: rest) = r :: filterVal f k rest := by
          simp [filterVal, List.filter_cons, hk]
        rw [hf]
        simp only [indexStep, hk]
        rw [lookupA_insertA]
        simp [combineGroup_push]
      · have hf : filterVal f v (r :: rest) = filterVal f v rest := by
          simp [filterVal, List.filter_cons, hk]
          intro h
          exact absurd h hkv
        rw [hf]
        simp only [indexStep, hk]
        rw [lookupA_insertA]
        simp [hkv]

theorem lookupA_buildIndex (f : String) (v : String) (items : List Record) :
    lookupA v (buildIndex f items) = combineGroup none (filterVal f v items) := by
  simpa [lookupA] using lookupA_buildIndexFrom f v items []

theorem keysOf_insertA (m : Index) (k : String) (r : Record) :
    keysOf (insertA m k r) =
      if k ∈ keysOf m then keysOf m else keysOf m ++ [k] := by
  induction m with
  | nil => simp [insertA, keysOf]
  | cons p rest ih =>
    obtain ⟨k2, g⟩ := p
    by_cases h2 : k2 = k
    · subst h2
      simp [insertA, keysOf]
    · have h2s : ¬ k = k2 := fun h => h2 h.symm
      simp only [insertA, if_neg h2]
      have hcons : keysOf ((k2, g) :: insertA rest k r) = k2 :: keysOf (insertA rest k r) := rfl
      rw [hcons, ih]
      by_cases hm : k ∈ List.map Prod.fst rest
      · simp [keysOf, hm, h2s]
      · simp [keysOf, hm, h2s]

theorem nodup_keysOf_insertA (m : Index) (k : String) (r : Record)
    (h : (keysOf m).Nodup) : (keysOf (insertA m k r)).Nodup := by
  rw [keysOf_insertA]
  by_cases hm : k ∈ keysOf m
  · simpa [hm] using h
  · simp only [hm, if_false]
    simpa [List.nodup_append, hm] using h

theorem nodup_keysOf_buildIndexFrom (f : String) (items : List Record) :
    ∀ m : Index, (keysOf m).Nodup → (keysOf (buildIndexFrom f m items)).Nodup := by
  induction items with
  | nil => intro m h; simpa [buildIndexFrom] using h
  | cons r rest ih =>
    intro m h
    have hstep : buildIndexFrom f m (r :: rest) = buildIndexFrom f (indexStep f m r) rest := rfl
    rw [hstep]
    apply ih
    cases hk : keyOf f r with
    | none => simpa [indexStep, hk] using h
    | some k => simpa [indexStep, hk] using nodup_keysOf_insertA m k r h

theorem nodup_keysOf_buildIndex (f : String) (items : List Record) :
    (keysOf (buildIndex f items)).Nodup := by
  apply nodup_keysOf_buildIndexFrom
  simp [keysOf]

theorem lookupA_eq_none_of_not_mem (m : Index) (v : String) (h : v ∉ keysOf m) :
    lookupA v m = none := by
  induction m with
  | nil => simp [lookupA]
  | cons p rest ih =>
    obtain ⟨k, g⟩ := p
    have hk : ¬ k = v := by
      intro hkv
      exact h (by simp [keysOf, hkv])
    have hrest : v ∉ keysOf rest := fun hv => h (by simp [keysOf]; right; simpa [keysOf] using hv)
    simp [lookupA, hk, ih hrest]

theorem lookupA_eq_some_of_mem (m : Index) (v : String) (g : List Record)
    (hnd : (keysOf m).Nodup) (h : (v, g) ∈ m) : lookupA v m = some g := by
  induction m with
  | nil => simp at h
  | cons p rest ih =>
    obtain ⟨k, g2⟩ := p
    rw [show keysOf ((k, g2) :: rest) = k :: keysOf rest from rfl, List.nodup_cons] at hnd
    rcases List.mem_cons.mp h with h | h
    · injection h with hv hg
      subst hv
      subst hg
      simp [lookupA]
    · have hv : v ∈ keysOf rest := by
        simpa [keysOf] using List.mem_map_of_mem Prod.fst h
      have hk : ¬ k = v := fun hkv => hnd.1 (hkv ▸ hv)
      simp [lookupA, hk, ih hnd.2 h]

theorem mem_of_lookupA_eq_some (m : Index) (v : String) (g : List Record)
    (h : lookupA v m = some g) : (v, g) ∈ m := by
  induction m with
  | nil => simp [lookupA] at h
  | cons p rest ih =>
    obtain ⟨k, g2⟩ := p
    by_cases hk : k = v
    · subst hk
      simp [lookupA] at h
      simp [h]
    · simp [lookupA, hk] at h
      simp [ih h]

theorem nodup_keysOf_filter (m : Index) (p : String × List Record → Bool)
    (h : (keysOf m).Nodup) : (keysOf (m.filter p)).Nodup :=
  h.sublist ((m.filter_sublist).map Prod.fst)

theorem not_mem_keysOf_filter (m : Index) (p : String × List Record → Bool)
    (v : String) (h : v ∉ keysOf m) : v ∉ keysOf (m.filter p) :=
  fun hv => h (((m.filter_sublist).map Prod.fst).mem hv)

theorem lookupA_filter (m : Index) (p : String × List Record → Bool) (v : String)
    (hnd : (keysOf m).Nodup) :
    lookupA v (m.filter p) =
      match lookupA v m with
      | some g => if p (v, g) then some g else none
      | none => none := by
  induction m with
  | nil => simp [lookupA]
  | cons q rest ih =>
    obtain ⟨k, g⟩ := q
    rw [show keysOf ((k, g) :: rest) = k :: keysOf rest from rfl, List.nodup_cons] at hnd
    by_cases hk : k = v
    · subst hk
      have hnone : lookupA k (List.filter p rest) = none :=
        lookupA_eq_none_of_not_mem _ _ (not_mem_keysOf_filter rest p k hnd.1)
      by_cases hp : p (k, g)
      · simp [List.filter_cons, hp, lookupA]
      · simp [List.filter_cons, hp, lookupA, hnone]
    · by_cases hp : p (k, g)
      · simp [List.filter_cons, hp, lookupA, hk, ih hnd.2]
      · simp [List.filter_cons, hp, lookupA, hk, ih hnd.2]

theorem combineGroup_none_eq_some (l g : List Record) :
    combineGroup none l = some g ↔ l = g ∧ l ≠ [] := by
  cases l <;> simp [combineGroup]

theorem group_of_mem_buildIndex (f : String) (items : List Record) (v : String)
    (g : List Record) (h : (v, g) ∈ buildIndex f items) :
    g = filterVal f v items ∧ g ≠ [] := by
  have hl : lookupA v (buildIndex f items) = some g :=
    lookupA_eq_some_of_mem _ _ _ (nodup_keysOf_buildIndex f items) h
  rw [lookupA_buildIndex] at hl
  obtain ⟨h1, h2⟩ := (combineGroup_none_eq_some _ _).mp hl
  exact ⟨h1.symm, h1 ▸ h2⟩

theorem keyOf_of_mem_buildIndex_group (f : String) (items : List Record)
    (v : String) (g : List Record) (h : (v, g) ∈ buildIndex f items)
    (x : Record) (hx : x ∈ g) : keyOf f x = some v := by
  obtain ⟨hg, _⟩ := group_of_mem_buildIndex f items v g h
  rw [hg] at hx
  have := List.of_mem_filter hx
  simpa using this

theorem groupMembers_nil : groupMembers [] = [] := rfl

theorem groupMembers_cons (q : String × List Record) (m : Index) :
    groupMembers (q :: m) = q.2 ++ groupMembers m := rfl

theorem mem_groupMembers (m : Index) (x : Record) :
    x ∈ groupMembers m ↔ ∃ q ∈ m, x ∈ q.2 := by
  induction m with
  | nil => simp [groupMembers]
  | cons q rest ih =>
    simp [groupMembers_cons, List.mem_append, ih]

theorem count_groupMembers_of_none (f : String) (m : Index) (r : Record)
    (hmem : ∀ q ∈ m, ∀ x ∈ q.2, keyOf f x = some q.1)
    (hr : keyOf f r = none) : (groupMembers m).count r = 0 := by
  rw [List.count_eq_zero]
  intro hin
  obtain ⟨q, hq, hx⟩ := (mem_groupMembers m r).mp hin
  rw [hmem q hq r hx] at hr
  cases hr

theorem count_groupMembers_of_key (f : String) (m : Index) (r : Record) (v : String)
    (hnd : (keysOf m).Nodup)
    (hmem : ∀ q ∈ m, ∀ x ∈ q.2, keyOf f x = some q.1)
    (hr : keyOf f r = some v) :
    (groupMembers m).count r =
      match lookupA v m with
      | some g => g.count r
      | none => 0 := by
  induction m with
  | nil => simp [groupMembers, lookupA]
  | cons q rest ih =>
    obtain ⟨k, g⟩ := q
    rw [show keysOf ((k, g) :: rest) = k :: keysOf rest from rfl, List.nodup_cons] at hnd
    have hmemr : ∀ q ∈ rest, ∀ x ∈ q.2, keyOf f x = some q.1 :=
      fun q hq => hmem q (List.mem_cons_of_mem _ hq)
    have hmemh : ∀ x ∈ g, keyOf f x = some k := hmem (k, g) (List.mem_cons_self _ _)
    rw [groupMembers_cons, List.count_append]
    by_cases hk : k = v
    · subst hk
      have hnone : lookupA k rest = none := lookupA_eq_none_of_not_mem _ _ hnd.1
      have hrest : (groupMembers rest).count r = 0 := by
        rw [ih hnd.2 hmemr, hnone]
      simp [lookupA, hrest]
    · have hg0 : g.count r = 0 := by
        rw [List.count_eq_zero]
        intro hin
        rw [hmemh r hin] at hr
        exact hk (Option.some.injEq .. ▸ hr ▸ rfl)
      rw [hg0, ih hnd.2 hmemr]
      simp [lookupA, hk]

theorem count_filterVal_self (f v : String) (items : List Record) (r : Record)
    (hr : keyOf f r = some v) : (filterVal f v items).count r = items.count r := by
  unfold filterVal
  exact List.count_filter (by simp [hr])

theorem count_filterVal_zero (f v : String) (items : List Record) (r : Record)
    (hr : keyOf f r ≠ some v) : (filterVal f v items).count r = 0 := by
  rw [List.count_eq_zero]
  intro hin
  exact hr (by simpa using List.of_mem_filter hin)

theorem sumCounts_cons (k : String) (n : Nat) (rest : CountMap) :
    sumCounts ((k, n) :: rest) = n + sumCounts rest := rfl

theorem sumCounts_bump (m : CountMap) (k : String) :
    sumCounts (bump m k) = sumCounts m + 1 := by
  induction m with
  | nil => simp [bump, sumCounts]
  | cons p rest ih =>
    obtain ⟨k2, n⟩ := p
    by_cases h : k2 = k
    · rw [show bump ((k2, n) :: rest) k = (k2, n + 1) :: rest from by simp [bump, h]]
      rw [sumCounts_cons, sumCounts_cons]
      omega
    · rw [show bump ((k2, n) :: rest) k = (k2, n) :: bump rest k from by simp [bump, h]]
      rw [sumCounts_cons, sumCounts_cons, ih]
      omega

theorem sumCounts_ownersFrom (field : String) (items : List Record) :
    ∀ m : CountMap, sumCounts (ownersFrom field m items) = sumCounts m + items.length := by
  induction items with
  | nil => intro m; simp [ownersFrom]
  | cons r rest ih =>
    intro m
    have hstep : ownersFrom field m (r :: rest)
        = ownersFrom field (bump m (ownerKey field r)) rest := rfl
    rw [hstep, ih, sumCounts_bump]
    simp [Nat.add_assoc, Nat.add_comm 1]

theorem countActive_cons (r : Record) (l : List Record) :
    countActive (r :: l) =
      (if attrBoolD r "active" true then 1 else 0) + countActive l := by
  simp only [countActive, List.filter_cons]
  split <;> simp_all <;> omega

theorem countInactive_cons (r : Record) (l : List Record) :
    countInactive (r :: l) =
      (if attrBoolD r "active" true then 0 else 1) + countInactive l := by
  simp only [countInactive, List.filter_cons]
  by_cases h : attrBoolD r "active" true <;> simp [h] <;> omega

theorem foldl_accScanStep (items : List Record) :
    ∀ (m1 m2 : Index) (u : CountMap) (a i : Nat),
      items.foldl accScanStep ⟨m1, m2, u, a, i⟩ =
        ⟨buildIndexFrom "accountId" m1 items,
         buildIndexFrom "plaidAccountId" m2 items,
         ownersFrom "userId" u items,
         a + countActive items,
         i + countInactive items⟩ := by
  induction items with
  | nil =>
    intro m1 m2 u a i
    simp [buildIndexFrom, ownersFrom, countActive, countInactive]
  | cons r rest ih =>
    intro m1 m2 u a i
    rw [List.foldl_cons, show accScanStep ⟨m1, m2, u, a, i⟩ r =
      ⟨indexStep "accountId" m1 r, indexStep "plaidAccountId" m2 r,
       bump u (ownerKey "userId" r),
       if attrBoolD r "active" true then a + 1 else a,
       if attrBoolD r "active" true then i else i + 1⟩ from rfl, ih]
    simp only [AccScanState.mk.injEq]
    refine ⟨rfl, rfl, rfl, ?_, ?_⟩
    · rw [countActive_cons]
      by_cases h : attrBoolD r "active" true <;> simp [h] <;> omega
    · rw [countInactive_cons]
      by_cases h : attrBoolD r "active" true <;> simp [h] <;> omega

theorem foldl_txScanStep (items : List Record) :
    ∀ (m1 m2 : Index) (u w : CountMap),
      items.foldl txScanStep ⟨m1, m2, u, w⟩ =
        ⟨buildIndexFrom "transactionId" m1 items,
         buildIndexFrom "plaidTransactionId" m2 items,
         ownersFrom "userId" u items,
         ownersFrom "accountId" w items⟩ := by
  induction items with
  | nil =>
    intro m1 m2 u w
    simp [buildIndexFrom, ownersFrom]
  | cons r rest ih =>
    intro m1 m2 u w
    rw [List.foldl_cons, show txScanStep ⟨m1, m2, u, w⟩ r =
      ⟨indexStep "transactionId" m1 r, indexStep "plaidTransactionId" m2 r,
       bump u (ownerKey "userId" r), bump w (ownerKey "accountId" r)⟩ from rfl, ih]
    rfl

theorem analyze_accounts_eq (items : List Record) :
    analyze_accounts items = analyze_accounts_multipass items := by
  unfold analyze_accounts analyze_accounts_multipass
  rw [foldl_accScanStep]
  simp [buildIndex]

theorem analyze_transactions_eq (items : List Record) :
    analyze_transactions items = analyze_transactions_multipass items := by
  unfold analyze_transactions analyze_transactions_multipass
  rw [foldl_txScanStep]
  simp [buildIndex]

theorem scan_table_ok (ps : List Page) (h : wfPages ps = true) :
    scan_table (ps.map Except.ok) = Except.ok (pagesItems ps, ps.length) := by
  induction ps with
  | nil => simp [wfPages] at h
  | cons p rest ih =>
    obtain ⟨its, cur⟩ := p
    cases rest with
    | nil =>
      have hc : cursorTruthy cur = false := by
        simpa [wfPages] using h
      simp [scan_table, hc, pagesItems]
    | cons q rest2 =>
      rw [show wfPages ((its, cur) :: q :: rest2)
          = (cursorTruthy cur && wfPages (q :: rest2)) from by simp [wfPages]] at h
      obtain ⟨hc, hw⟩ := Bool.and_eq_true .. ▸ h
      rw [show ((its, cur) :: q :: rest2).map Except.ok
          = Except.ok (ε := String) (its, cur) :: (q :: rest2).map Except.ok from rfl]
      rw [show pagesItems ((its, cur) :: q :: rest2)
          = its ++ pagesItems (q :: rest2) from rfl]
      have hstep : scan_table (Except.ok (ε := String) (its, cur) :: (q :: rest2).map Except.ok)
          = match scan_table ((q :: rest2).map Except.ok) with
            | Except.error e => Except.error e
            | Except.ok (more, n) => Except.ok (its ++ more, n + 1) := by
        rw [show scan_table (Except.ok (ε := String) (its, cur) :: (q :: rest2).map Except.ok)
            = if cursorTruthy cur then
                (match scan_table ((q :: rest2).map Except.ok) with
                 | Except.error e => Except.error e
                 | Except.ok (more, n) => Except.ok (its ++ more, n + 1))
              else Except.ok (its, 1) from rfl, hc]
        simp
      rw [hstep, ih hw]
      simp

theorem length_pagesItems (ps : List Page) :
    (pagesItems ps).length = sumPageLens ps := by
  induction ps with
  | nil => rfl
  | cons p rest ih =>
    rw [show pagesItems (p :: rest) = p.1 ++ pagesItems rest from rfl,
        show sumPageLens (p :: rest) = p.1.length + sumPageLens rest from rfl,
        List.length_append, ih]

theorem attrS_of_keyOf (f : String) (r : Record) (v : String)
    (h : keyOf f r = some v) : attrS r f = some v := by
  unfold keyOf at h
  cases hs : attrS r f with
  | none => rw [hs] at h; cases h
  | some w =>
    rw [hs] at h
    by_cases hw : w = ""
    · simp [hw] at h
    · simp [hw] at h
      rw [h]

theorem keyOf_ne_some_empty (f : String) (r : Record) : keyOf f r ≠ some "" := by
  unfold keyOf
  cases hs : attrS r f with
  | none => simp
  | some w =>
    by_cases hw : w = ""
    · simp [hw]
    · simp [hw]

theorem count_filter_of_pos {p : Record → Bool} {x : Record} (l : List Record)
    (h : p x = true) : (l.filter p).count x = l.count x :=
  List.count_filter h

theorem count_filter_of_neg {p : Record → Bool} {x : Record} (l : List Record)
    (h : p x = false) : (l.filter p).count x = 0 := by
  rw [List.count_eq_zero]
  intro hmem
  have := List.of_mem_filter hmem
  rw [h] at this
  cases this

theorem filter_mem_group (f : String) (m : Index) (r : Record) (v : String)
    (hnd : (keysOf m).Nodup)
    (hmem : ∀ q ∈ m, ∀ x ∈ q.2, keyOf f x = some q.1)
    (hr : keyOf f r = some v) :
    m.filter (fun p => decide (r ∈ p.2)) =
      match lookupA v m with
      | some g => if r ∈ g then [(v, g)] else []
      | none => [] := by
  induction m with
  | nil => simp [lookupA]
  | cons q rest ih =>
    obtain ⟨k, g⟩ := q
    rw [show keysOf ((k, g) :: rest) = k :: keysOf rest from rfl, List.nodup_cons] at hnd
    have hmemr : ∀ q ∈ rest, ∀ x ∈ q.2, keyOf f x = some q.1 :=
      fun q hq => hmem q (List.mem_cons_of_mem _ hq)
    by_cases hg : r ∈ g
    · have hkv : k = v := by
        have := hmem (k, g) (List.mem_cons_self _ _) r hg
        rw [this] at hr
        exact Option.some.injEq .. ▸ hr
      subst hkv
      have hrest : List.filter (fun p => decide (r ∈ p.2)) rest = [] := by
        rw [List.filter_eq_nil_iff]
        intro q hq
        simp only [decide_eq_true_eq]
        intro hrq
        have hkq := hmem q (List.mem_cons_of_mem _ hq) r hrq
        rw [hkq] at hr
        have : q.1 = k := Option.some.injEq .. ▸ hr
        exact hnd.1 (this ▸ List.mem_map_of_mem Prod.fst hq)
      simp [List.filter_cons, hg, hrest, lookupA]
    · have hlrest : lookupA v rest = none ∨ k ≠ v := by
        by_cases hk : k = v
        · subst hk
          exact Or.inl (lookupA_eq_none_of_not_mem _ _ hnd.1)
        · exact Or.inr hk
      rw [show List.filter (fun p => decide (r ∈ p.2)) (((k, g)) :: rest)
          = List.filter (fun p => decide (r ∈ p.2)) rest from by simp [List.filter_cons, hg]]
      rw [ih hnd.2 hmemr]
      by_cases hk : k = v
      · subst hk
        have hnone : lookupA k rest = none := lookupA_eq_none_of_not_mem _ _ hnd.1
        simp [lookupA, hnone, hg]
      · simp [lookupA, hk]

theorem mem_duplicates_iff (f : String) (items : List Record) (v : String) (g : List Record) :
    (v, g) ∈ duplicates (buildIndex f items) ↔
      filterVal f v items = g ∧ 2 ≤ g.length := by
  constructor
  · intro h
    have hmem : (v, g) ∈ buildIndex f items := List.mem_of_mem_filter h
    have hlen : 1 < g.length := by
      have := List.of_mem_filter h
      simpa using this
    obtain ⟨hg, _⟩ := group_of_mem_buildIndex f items v g hmem
    exact ⟨hg.symm, hlen⟩
  · rintro ⟨hg, hlen⟩
    have hne : g ≠ [] := by
      intro h0
      rw [h0] at hlen
      simp at hlen
    have hlook : lookupA v (buildIndex f items) = some g := by
      rw [lookupA_buildIndex, hg]
      cases g with
      | nil => exact absurd rfl hne
      | cons a l => rfl
    have hmem := mem_of_lookupA_eq_some _ _ _ hlook
    exact List.mem_filter.mpr ⟨hmem, by simpa using hlen⟩

theorem nodup_keysOf_duplicates (f : String) (items : List Record) :
    (keysOf (duplicates (buildIndex f items))).Nodup :=
  nodup_keysOf_filter _ _ (nodup_keysOf_buildIndex f items)

theorem keyOf_of_mem_duplicates (f : String) (items : List Record) :
    ∀ q ∈ duplicates (buildIndex f items), ∀ x ∈ q.2, keyOf f x = some q.1 :=
  fun q hq =>
    keyOf_of_mem_buildIndex_group f items q.1 q.2 (List.mem_of_mem_filter hq)

theorem keyOf_of_mem_index (f : String) (items : List Record) :
    ∀ q ∈ buildIndex f items, ∀ x ∈ q.2, keyOf f x = some q.1 :=
  fun q hq => keyOf_of_mem_buildIndex_group f items q.1 q.2 hq

theorem lookupA_duplicates (f : String) (items : List Record) (v : String) :
    lookupA v (duplicates (buildIndex f items)) =
      match lookupA v (buildIndex f items) with
      | some g => if decide (1 < g.length) then some g else none
      | none => none :=
  lookupA_filter _ _ _ (nodup_keysOf_buildIndex f items)

theorem record_trichotomy (f : String) (items : List Record) (r : Record)
    (hr : r ∈ items) :
    (groupsContaining f items r).length = 1 ∨ keyOf f r = none ∨
      uniqueB f items r = true := by
  cases hx : keyOf f r with
  | none => exact Or.inr (Or.inl rfl)
  | some v =>
    have hrl : r ∈ filterVal f v items := List.mem_filter.mpr ⟨hr, by simp [hx]⟩
    have hne : filterVal f v items ≠ [] := List.ne_nil_of_mem hrl
    have hlook : lookupA v (buildIndex f items)
        = some (filterVal f v items) := by
      rw [lookupA_buildIndex]
      cases hfl : filterVal f v items with
      | nil => exact absurd hfl hne
      | cons a l => rfl
    by_cases h2 : 1 < (filterVal f v items).length
    · left
      unfold groupsContaining
      rw [filter_mem_group f (duplicates (buildIndex f items)) r v
            (nodup_keysOf_duplicates f items) (keyOf_of_mem_duplicates f items) hx,
          lookupA_duplicates, hlook]
      simp [h2, hrl]
    · right
      right
      have hlen : (filterVal f v items).length = 1 := by
        have hpos : 0 < (filterVal f v items).length := List.length_pos.mpr hne
        omega
      simp [uniqueB, hx, hlen]

theorem count_eq_countRec (x : Record) (l : List Record) :
    l.count x = countRec x l := by
  rw [List.count_eq_countP]
  exact List.countP_congr (fun y _ => by simp)

theorem perm_of_countRec_eq (l1 l2 : List Record)
    (h : ∀ x, countRec x l1 = countRec x l2) : l1.Perm l2 := by
  rw [List.perm_iff_count]
  intro a
  have h1 := h a
  simpa [countRec, List.count_eq_countP] using h1

theorem partition_perm (f : String) (items : List Record) :
    (groupMembers (duplicates (buildIndex f items))
        ++ absentRecs f items ++ uniqueRecs f items).Perm items := by
  apply perm_of_countRec_eq
  intro x
  simp only [← count_eq_countRec]
  rw [List.count_append, List.count_append]
  cases hx : keyOf f x with
  | none =>
    rw [count_groupMembers_of_none f _ x (keyOf_of_mem_duplicates f items) hx]
    rw [show absentRecs f items = items.filter (fun r => decide (keyOf f r = none)) from rfl,
        count_filter_of_pos items (by simp [hx])]
    rw [show uniqueRecs f items = items.filter (uniqueB f items) from rfl,
        count_filter_of_neg items (by simp [uniqueB, hx])]
    omega
  | some v =>
    have hgm := count_groupMembers_of_key f (duplicates (buildIndex f items)) x v
      (nodup_keysOf_duplicates f items) (keyOf_of_mem_duplicates f items) hx
    have habs : (absentRecs f items).count x = 0 :=
      count_filter_of_neg items (by simp [hx])
    rw [hgm, lookupA_duplicates, habs]
    cases hfl : filterVal f v items with
    | nil =>
      rw [lookupA_buildIndex, hfl]
      have hxitems : x ∉ items := by
        intro hmem
        have : x ∈ filterVal f v items := List.mem_filter.mpr ⟨hmem, by simp [hx]⟩
        rw [hfl] at this
        cases this
      have hcnt0 : items.count x = 0 := List.count_eq_zero.mpr hxitems
      have huniq : (uniqueRecs f items).count x = 0 :=
        count_filter_of_neg items (by simp [uniqueB, hx, hfl])
      rw [huniq, hcnt0]
      simp [combineGroup]
    | cons a l =>
      have hlook : lookupA v (buildIndex f items) = some (filterVal f v items) := by
        rw [lookupA_buildIndex, hfl]
        rfl
      rw [hfl] at hlook
      rw [hlook]
      by_cases h2 : 1 < (a :: l).length
      · have hcnt : (a :: l).count x = items.count x := by
          rw [show a :: l = filterVal f v items from hfl.symm]
          exact count_filterVal_self f v items x hx
        have huniq : (uniqueRecs f items).count x = 0 := by
          apply count_filter_of_neg items
          have hne2 : ¬ l = [] := by
            intro h0
            rw [h0] at h2
            simp at h2
          simp [uniqueB, hx, hfl, hne2]
        rw [huniq]
        have hl : 0 < l.length := by
          simp only [List.length_cons] at h2
          omega
        simp [hl, hcnt]
      · have hlen : (a :: l).length = 1 := by
          have : 0 < (a :: l).length := by simp
          omega
        have huniq : (uniqueRecs f items).count x = items.count x := by
          apply count_filter_of_pos items
          simp [uniqueB, hx, hfl, hlen]
        rw [huniq]
        have hl : ¬ 0 < l.length := by
          simp only [List.length_cons] at hlen
          omega
        simp [hl]

/-- C1, counterexample: the partition claim as stated fails on two
records that both carry the empty string in the identity field: neither
record lacks the field, neither value is unique, and no DuplicateGroup
contains them, so the stated trichotomy and the stated repartition both
fail. -/
theorem record_partition_as_stated_false :
    ¬ specC1Statement "accountId" [recEmpty1, recEmpty2] := fun h =>
  absurd (h.1 recEmpty1 (by decide)) (by decide)

/-- C1 (amended): for every record stream and identity field, each
scanned record is a member of exactly one DuplicateGroup for that field,
or is excluded from the index because the field is absent, not a string,
or the empty string, or its indexed value is unique; and the duplicate
group members plus the excluded records plus the unique-value records
are a permutation of the scanned set, so no record is duplicated or
lost. -/
theorem record_partition (f : String) (items : List Record) (r : Record)
    (hr : r ∈ items) :
    ((groupsContaining f items r).length = 1 ∨ keyOf f r = none ∨
      uniqueB f items r = true) ∧
    (groupMembers (duplicates (buildIndex f items))
        ++ absentRecs f items ++ uniqueRecs f items).Perm items :=
  ⟨record_trichotomy f items r hr, partition_perm f items⟩

/-- C1, witness of the amended partition at a concrete stream. -/
theorem record_partition_witness :
    ((groupsContaining "accountId" [recA1, recA2, recB] recA1).length = 1 ∨
      keyOf "accountId" recA1 = none ∨
      uniqueB "accountId" [recA1, recA2, recB] recA1 = true) ∧
    (groupMembers (duplicates (buildIndex "accountId" [recA1, recA2, recB]))
        ++ absentRecs "accountId" [recA1, recA2, recB]
        ++ uniqueRecs "accountId" [recA1, recA2, recB]).Perm [recA1, recA2, recB] :=
  record_partition "accountId" [recA1, recA2, recB] recA1 (by decide)

/-- C2, counterexample: "a value is emitted as a DuplicateGroup iff at
least 2 records share that value" fails for the empty-string value: two
records share it, yet the code indexes neither and emits no group. -/
theorem dup_group_iff_as_stated_false :
    ¬ specC2Statement "accountId" [recEmpty1, recEmpty2] "" := by
  intro h
  have h2 : 2 ≤ (sharersRaw "accountId" "" [recEmpty1, recEmpty2]).length := by decide
  obtain ⟨g, hg⟩ := h.mpr h2
  have hd : duplicates (buildIndex "accountId" [recEmpty1, recEmpty2]) = [] := by decide
  rw [hd] at hg
  cases hg

/-- C2 (amended): a pair (value, group) is emitted as a DuplicateGroup
for field `f` exactly when the group is the list, in first-seen scan
order, of the records indexed under that value (present, string, and
nonempty) and that list has at least 2 members; in particular for a
stream with primary-id values A, A, B exactly one group is emitted, for
A, holding the two A records in scan order, and none for B. -/
theorem dup_group_iff (f : String) (items : List Record) (v : String)
    (g : List Record) :
    ((v, g) ∈ duplicates (buildIndex f items) ↔
      filterVal f v items = g ∧ 2 ≤ g.length) ∧
    (analyze_accounts [recA1, recA2, recB]).duplicate_account_ids
      = [("A", [recA1, recA2])] :=
  ⟨mem_duplicates_iff f items v g, by decide⟩

/-- C3: a record whose identity field is absent never appears in any
DuplicateGroup of that field, and every emitted group key is a value
actually present on some scanned record, so no group is created under a
synthetic null or unknown key. -/
theorem missing_field_excluded (f : String) (items : List Record) (r : Record)
    (h : attrS r f = none) :
    (∀ v g, (v, g) ∈ duplicates (buildIndex f items) → r ∉ g) ∧
    (∀ v g, (v, g) ∈ duplicates (buildIndex f items) →
      ∃ x ∈ items, attrS x f = some v) := by
  have hk : keyOf f r = none := by simp [keyOf, h]
  constructor
  · intro v g hg hrg
    have hkv := keyOf_of_mem_duplicates f items (v, g) hg r hrg
    rw [hk] at hkv
    cases hkv
  · intro v g hg
    have hmem : (v, g) ∈ buildIndex f items := List.mem_of_mem_filter hg
    obtain ⟨hgf, hne⟩ := group_of_mem_buildIndex f items v g hmem
    obtain ⟨x, hx⟩ := List.exists_mem_of_ne_nil g hne
    refine ⟨x, ?_, ?_⟩
    · have hxf : x ∈ filterVal f v items := hgf ▸ hx
      exact List.mem_of_mem_filter hxf
    · exact attrS_of_keyOf f x v (keyOf_of_mem_index f items (v, g) hmem x hx)

/-- C3, witness at a concrete stream and a concrete field-lacking record. -/
theorem missing_field_excluded_witness :
    (∀ v g, (v, g) ∈ duplicates (buildIndex "accountId" [recA1, recA2, recNoAcc])
      → recNoAcc ∉ g) ∧
    (∀ v g, (v, g) ∈ duplicates (buildIndex "accountId" [recA1, recA2, recNoAcc])
      → ∃ x ∈ [recA1, recA2, recNoAcc], attrS x "accountId" = some v) :=
  missing_field_excluded "accountId" [recA1, recA2, recNoAcc] recNoAcc (by decide)

/-- C4: the owner aggregation increments exactly one bucket per record,
so the by-user counts of both analyses, and the by-account counts of the
transaction analysis, sum exactly to the total record count; and for
owner values u1, u1, u2 the aggregate is u1 to 2 and u2 to 1. -/
theorem owner_counts_sum (items : List Record) :
    sumCounts ((analyze_accounts items).by_user) = (analyze_accounts items).total ∧
    sumCounts ((analyze_transactions items).by_user) = (analyze_transactions items).total ∧
    sumCounts ((analyze_transactions items).by_account) = (analyze_transactions items).total ∧
    (analyze_accounts [recA1, recA2, recB]).by_user = [("u1", 2), ("u2", 1)] := by
  refine ⟨?_, ?_, ?_, by decide⟩
  · rw [analyze_accounts_eq]
    show sumCounts (ownersFrom "userId" [] items) = items.length
    rw [sumCounts_ownersFrom]
    simp [sumCounts]
  · rw [analyze_transactions_eq]
    show sumCounts (ownersFrom "userId" [] items) = items.length
    rw [sumCounts_ownersFrom]
    simp [sumCounts]
  · rw [analyze_transactions_eq]
    show sumCounts (ownersFrom "accountId" [] items) = items.length
    rw [sumCounts_ownersFrom]
    simp [sumCounts]

/-- C5: over any well-formed finite page sequence (truthy cursor on every
page but the last, none on the last), the scan returns every item of
every page exactly once in page order, performs exactly one fetch per
page, and the record count equals the sum of the page lengths. -/
theorem scan_pagination (ps : List Page) (h : wfPages ps = true) :
    scan_table (ps.map Except.ok) = Except.ok (pagesItems ps, ps.length) ∧
    (pagesItems ps).length = sumPageLens ps :=
  ⟨scan_table_ok ps h, length_pagesItems ps⟩

/-- C5, witness: pages r1 r2 with a cursor then r3 with none give exactly
the three records after exactly two fetches. -/
theorem scan_pagination_witness :
    scan_table ([([recA1, recA2], some "c1"), ([recB], none)].map Except.ok)
      = Except.ok ([recA1, recA2, recB], 2) ∧
    (pagesItems [([recA1, recA2], some "c1"), ([recB], none)]).length = 3 := by
  have h := scan_pagination [([recA1, recA2], some "c1"), ([recB], none)] (by decide)
  constructor
  · rw [h.1]
    rfl
  · rw [h.2]
    rfl

/-- C6: the single-pass construction of both analyses (one traversal of
the item stream filling every identity map and every aggregate) equals
the reference construction that rebuilds each index and each aggregate
by its own full traversal. -/
theorem single_pass_refines_multipass (items : List Record) :
    analyze_accounts items = analyze_accounts_multipass items ∧
    analyze_transactions items = analyze_transactions_multipass items :=
  ⟨analyze_accounts_eq items, analyze_transactions_eq items⟩

/-- C7: a failure raised by the second page fetch of the accounts scan
yields a recorded failure with its cause for that table and no report,
while the transactions analysis runs to completion on its own pages and
is reported. -/
theorem failure_isolation (p1 : Page) (e : String) (ps : List Page)
    (h1 : cursorTruthy p1.2 = true) (h2 : wfPages ps = true)
    (h3 : pagesItems ps ≠ []) :
    mainCore ProbeResult.found ProbeResult.found
        [Except.ok p1, Except.error e] (ps.map Except.ok)
      = (TableOutcome.failed e,
         TableOutcome.report (analyze_transactions (pagesItems ps))) := by
  obtain ⟨its, cur⟩ := p1
  have h1c : cursorTruthy cur = true := h1
  have hscan1 : scan_table [Except.ok (ε := String) (its, cur), Except.error e]
      = Except.error e := by
    simp [scan_table, h1c]
  have hscan2 : scan_table (ps.map Except.ok) = Except.ok (pagesItems ps, ps.length) :=
    scan_table_ok ps h2
  have hne : (pagesItems ps).isEmpty = false := by
    cases hp : pagesItems ps with
    | nil => exact absurd hp h3
    | cons a l => rfl
  unfold mainCore
  rw [Prod.mk.injEq]
  constructor
  · show runTable ProbeResult.found [Except.ok (its, cur), Except.error e] analyze_accounts
      = TableOutcome.failed e
    unfold runTable
    rw [hscan1]
  · show runTable ProbeResult.found (ps.map Except.ok) analyze_transactions
      = TableOutcome.report (analyze_transactions (pagesItems ps))
    unfold runTable
    rw [hscan2]
    simp [hne]

/-- C7, witness: accounts fail at the second fetch with cause boom while
the sibling transactions table is fully analyzed and reported. -/
theorem failure_isolation_witness :
    mainCore ProbeResult.found ProbeResult.found
        [Except.ok ([recA1], some "c"), Except.error "boom"]
        ([([recB], none)].map Except.ok)
      = (TableOutcome.failed "boom",
         TableOutcome.report (analyze_transactions [recB])) := by
  have h := failure_isolation ([recA1], some "c") "boom" [([recB], none)]
    (by decide) (by decide) (by decide)
  simpa [pagesItems] using h

/-- C8: the existence probe gates analysis: a not-found probe yields the
non-error skip outcome, any other probe error is surfaced as a probe
error outcome, the outcome of a non-existing table does not depend on the
scan responses at all, and a report is only ever produced when the probe
confirmed existence. -/
theorem catalog_gate {A : Type} (probe : ProbeResult)
    (responses : List (Except String Page)) (analyzeFn : List Record → A) :
    (probe = ProbeResult.notFound →
      runTable probe responses analyzeFn = TableOutcome.skippedMissing) ∧
    (∀ m, probe = ProbeResult.probeFailed m →
      runTable probe responses analyzeFn = TableOutcome.probeError m) ∧
    (probe ≠ ProbeResult.found → ∀ responses2,
      runTable probe responses analyzeFn = runTable probe responses2 analyzeFn) ∧
    (∀ a, runTable probe responses analyzeFn = TableOutcome.report a →
      probe = ProbeResult.found) := by
  cases probe with
  | found =>
    refine ⟨?_, ?_, ?_, ?_⟩
    · intro h
      cases h
    · intro m h
      cases h
    · intro h
      exact absurd rfl h
    · intro a _
      rfl
  | notFound =>
    refine ⟨?_, ?_, ?_, ?_⟩
    · intro _
      rfl
    · intro m h
      cases h
    · intro _ r2
      rfl
    · intro a h
      simp [runTable] at h
  | probeFailed m0 =>
    refine ⟨?_, ?_, ?_, ?_⟩
    · intro h
      cases h
    · intro m h
      cases h
      rfl
    · intro _ r2
      rfl
    · intro a h
      simp [runTable] at h

/-- C8, witness: a not-found probe on a concrete table skips it with the
non-error outcome. -/
theorem catalog_gate_witness :
    runTable ProbeResult.notFound [] analyze_accounts = TableOutcome.skippedMissing :=
  (catalog_gate ProbeResult.notFound [] analyze_accounts).1 rfl

/-- C9: a record whose identity field is present but the empty string is
treated exactly like a record missing the field: the indexing pass skips
it unchanged, it appears in no group of the index, and no DuplicateGroup
is ever emitted under the empty-string value. -/
theorem empty_string_excluded (f : String) (items : List Record) (r : Record)
    (h : attrS r f = some "") :
    (∀ m rest, buildIndexFrom f m (r :: rest) = buildIndexFrom f m rest) ∧
    (∀ v g, (v, g) ∈ buildIndex f items → r ∉ g) ∧
    (∀ g, ("", g) ∉ duplicates (buildIndex f items)) := by
  have hk : keyOf f r = none := by simp [keyOf, h]
  refine ⟨?_, ?_, ?_⟩
  · intro m rest
    unfold buildIndexFrom
    rw [List.foldl_cons, show indexStep f m r = m from by simp [indexStep, hk]]
  · intro v g hg hrg
    have hkv := keyOf_of_mem_index f items (v, g) hg r hrg
    rw [hk] at hkv
    cases hkv
  · intro g hg
    have hmem : ("", g) ∈ buildIndex f items := List.mem_of_mem_filter hg
    obtain ⟨hgf, hne⟩ := group_of_mem_buildIndex f items "" g hmem
    have hempty : filterVal f "" items = [] := by
      unfold filterVal
      rw [List.filter_eq_nil_iff]
      intro x _
      simp only [decide_eq_true_eq]
      exact keyOf_ne_some_empty f x
    exact hne (hgf.trans hempty)

/-- C9, witness at a concrete stream of two empty-string records. -/
theorem empty_string_excluded_witness :
    (∀ m rest, buildIndexFrom "accountId" m (recEmpty1 :: rest)
      = buildIndexFrom "accountId" m rest) ∧
    (∀ v g, (v, g) ∈ buildIndex "accountId" [recEmpty1, recEmpty2]
      → recEmpty1 ∉ g) ∧
    (∀ g, ("", g) ∉ duplicates (buildIndex "accountId" [recEmpty1, recEmpty2])) :=
  empty_string_excluded "accountId" [recEmpty1, recEmpty2] recEmpty1 (by decide)

/-- C10: the unknown-owner sentinel is the literal string N/A and it does
not distinguish a present owner value N/A from an absent owner field:
both map to the same bucket key, and swapping one such record for the
other leaves the whole owner aggregate identical. -/
theorem na_sentinel_collision (items : List Record) (r1 r2 : Record)
    (h1 : attrS r1 "userId" = some "N/A") (h2 : attrS r2 "userId" = none) :
    ownerKey "userId" r1 = "N/A" ∧ ownerKey "userId" r2 = "N/A" ∧
    (analyze_accounts (items ++ [r1])).by_user
      = (analyze_accounts (items ++ [r2])).by_user := by
  have hk1 : ownerKey "userId" r1 = "N/A" := by simp [ownerKey, attrSD, h1]
  have hk2 : ownerKey "userId" r2 = "N/A" := by simp [ownerKey, attrSD, h2]
  refine ⟨hk1, hk2, ?_⟩
  rw [analyze_accounts_eq, analyze_accounts_eq]
  show ownersFrom "userId" [] (items ++ [r1]) = ownersFrom "userId" [] (items ++ [r2])
  unfold ownersFrom
  rw [List.foldl_append, List.foldl_append]
  simp [hk1, hk2]

/-- C10, witness: a record with userId N/A and a record with no userId
land in the same bucket and give identical aggregates. -/
theorem na_sentinel_collision_witness :
    ownerKey "userId" recNA = "N/A" ∧ ownerKey "userId" recNoUser = "N/A" ∧
    (analyze_accounts ([recA1] ++ [recNA])).by_user
      = (analyze_accounts ([recA1] ++ [recNoUser])).by_user :=
  na_sentinel_collision [recA1] recNA recNoUser (by decide) (by decide)
